import Mathlib

/-
Verification of the tabular aggregation-and-chart-generation pipeline of the
OnlineAlgorithms repository (five pandas/seaborn plotting scripts:
src/l1/plot.py, src/l2/gen_plots.py, src/l3/plot.py, src/l4/plot.py,
src/l5/plot.py).

The scripts delegate the numeric work to pandas/seaborn; the embedding below
translates each operation the scripts actually invoke, with the semantics that
pandas/numpy/seaborn give it:
  - real numbers are modelled by ℚ, extended with infinities and NaN (PFloat)
    where IEEE float division by zero matters;
  - pandas groupby(...) defaults to sort=True: group keys in the result are
    sorted ascending, values inside a group keep input order;
  - pandas Series.unique() keeps first-appearance order;
  - seaborn categorical plots with an explicit order keep exactly the listed
    categories and silently drop rows whose category is not listed;
  - pandas pivot raises ValueError on a duplicate (index, column) pair and
    fills absent cells with NaN (modelled as Option.none).
-/

/-- Extended value domain for pandas float columns: a finite rational,
positive or negative infinity, or NaN. -/
inductive PFloat where
  | fin (q : ℚ)
  | inf
  | ninf
  | nan
deriving DecidableEq

/-- IEEE-style division as performed by pandas `/` on numeric columns:
a finite nonzero divisor gives the exact quotient, a zero divisor gives a
signed infinity (NaN when the dividend is also zero).  Division never raises:
pandas only emits a RuntimeWarning.  Only finite operands occur in the
scripts, so the non-finite cases collapse to NaN here. -/
def fdiv : PFloat → PFloat → PFloat
  | .fin a, .fin b =>
      if b = 0 then
        if 0 < a then .inf else if a < 0 then .ninf else .nan
      else .fin (a / b)
  | _, _ => .nan

/-- Row of l1.csv as read by src/l1/plot.py (columns: n, list_type,
distribution, total_cost). -/
structure L1Row where
  n : ℚ
  list_type : String
  distribution : String
  total_cost : ℚ
deriving DecidableEq

/-- src/l1/plot.py line 11: `data['avg_cost'] = data['total_cost'] / data['n']`
(pandas element-wise float division). -/
def avg_cost (r : L1Row) : PFloat := fdiv (.fin r.total_cost) (.fin r.n)

/-- Row of results.csv as read by src/l3/plot.py (columns used: strategy,
distribution, item_sum, bin_count). -/
structure L3Row where
  strategy : String
  distribution : String
  item_sum : ℚ
  bin_count : ℚ
deriving DecidableEq

/-- src/l3/plot.py line 13: `df['optimum'] = np.ceil(df['item_sum'])`. -/
def optimum (r : L3Row) : ℚ := (⌈r.item_sum⌉ : ℤ)

/-- src/l3/plot.py line 14:
`df['competitive_ratio'] = df['bin_count'] / df['optimum']`. -/
def competitiveRatio (r : L3Row) : PFloat :=
  fdiv (.fin r.bin_count) (.fin (optimum r))

/-- C1: the claim states that a derivation dividing by a zero-valued field
fails with DerivationDomainError rather than producing an infinity.  In the
code the derivation is pandas float division, which is total: on the record
{n:0, total_cost:5} of the claim it silently produces positive infinity and
no error is raised. -/
theorem c1_div_by_zero_counterexample :
    avg_cost ⟨0, "FIFO", "Uniform", 5⟩ = PFloat.inf := by
  simp [avg_cost, fdiv]

/-- C1 (amended): a record divided by a zero-valued field silently yields a
signed infinity (NaN when the dividend is also zero) instead of failing; on a
record with nonzero divisor the derivation yields the exact quotient, e.g.
{n:4, total_cost:12} yields 3.  The same holds for the competitive-ratio
derivation of src/l3/plot.py. -/
theorem c1_derivation_amended :
    (∀ n tc : ℚ, ∀ s1 s2 : String, n ≠ 0 →
      avg_cost ⟨n, s1, s2, tc⟩ = PFloat.fin (tc / n)) ∧
    avg_cost ⟨0, "FIFO", "Uniform", 5⟩ = PFloat.inf ∧
    (∀ r : L3Row, optimum r ≠ 0 →
      competitiveRatio r = PFloat.fin (r.bin_count / optimum r)) := by
  refine ⟨?_, ?_, ?_⟩
  · intro n tc s1 s2 hn
    simp [avg_cost, fdiv, hn]
  · simp [avg_cost, fdiv]
  · intro r h
    simp [competitiveRatio, fdiv, h]

/-- C1 witness: the amended statement instantiated at the claim's example
records {n:4, total_cost:12} ↦ 3 and {n:0, total_cost:5} ↦ +∞, and at a
bin-packing record with optimum ⌈3/2⌉ = 2, bin_count 3 ↦ 3/2. -/
theorem c1_derivation_witness :
    avg_cost ⟨4, "FIFO", "Uniform", 12⟩ = PFloat.fin 3 ∧
    avg_cost ⟨0, "FIFO", "Uniform", 5⟩ = PFloat.inf ∧
    competitiveRatio ⟨"NextFit", "Uniform", 3/2, 3⟩ = PFloat.fin (3/2) := by
  have h := c1_derivation_amended
  refine ⟨?_, h.2.1, ?_⟩
  · have h4 := h.1 4 12 "FIFO" "Uniform" (by norm_num)
    rw [h4]
    norm_num
  · have hceil : (⌈(3:ℚ)/2⌉ : ℤ) = 2 := by
      rw [Int.ceil_eq_iff]
      norm_num
    have hopt : optimum ⟨"NextFit", "Uniform", 3/2, 3⟩ = 2 := by
      simp only [optimum]
      rw [hceil]
      norm_num
    have h3 := h.2.2 ⟨"NextFit", "Uniform", 3/2, 3⟩ (by rw [hopt]; norm_num)
    rw [h3, hopt]

/-- First-appearance deduplication, the semantics of pandas Series.unique()
(src/l1/plot.py line 15, src/l2/gen_plots.py line 26, src/l4/plot.py
lines 83-84).  The accumulator holds the values already emitted. -/
def dedupFirstAux [DecidableEq α] (seen : List α) : List α → List α
  | [] => []
  | a :: as =>
      if a ∈ seen then dedupFirstAux seen as
      else a :: dedupFirstAux (a :: seen) as

/-- pandas Series.unique(): distinct values in first-appearance order. -/
def dedupFirst [DecidableEq α] (l : List α) : List α := dedupFirstAux [] l

theorem mem_dedupFirstAux [DecidableEq α] (a : α) :
    ∀ (l seen : List α), a ∈ dedupFirstAux seen l ↔ a ∈ l ∧ a ∉ seen := by
  intro l
  induction l with
  | nil => intro seen; simp [dedupFirstAux]
  | cons b bs ih =>
    intro seen
    by_cases hb : b ∈ seen
    · rw [dedupFirstAux, if_pos hb, ih]
      by_cases hab : a = b
      · subst hab; simp [hb]
      · simp [hab]
    · rw [dedupFirstAux, if_neg hb]
      simp only [List.mem_cons, ih]
      by_cases hab : a = b
      · subst hab; simp [hb]
      · simp [hab]

theorem mem_dedupFirst [DecidableEq α] (a : α) (l : List α) :
    a ∈ dedupFirst l ↔ a ∈ l := by
  rw [dedupFirst, mem_dedupFirstAux]
  simp

/-- Insertion step of the ascending sort applied by pandas to group and
pivot-index keys. -/
def insertLe (le : α → α → Bool) (a : α) : List α → List α
  | [] => [a]
  | b :: bs => if le a b then a :: b :: bs else b :: insertLe le a bs

/-- Insertion sort; models the ascending ordering of group keys produced by
pandas groupby (sort=True default) and of pivot index/column keys. -/
def sortLe (le : α → α → Bool) : List α → List α
  | [] => []
  | a :: as => insertLe le a (sortLe le as)

theorem mem_insertLe (le : α → α → Bool) (a x : α) :
    ∀ l, x ∈ insertLe le a l ↔ x = a ∨ x ∈ l := by
  intro l
  induction l with
  | nil => simp [insertLe]
  | cons b bs ih =>
    rw [insertLe]
    by_cases h : le a b = true
    · simp [h, List.mem_cons]
    · simp [h, List.mem_cons, ih]
      tauto

theorem mem_sortLe (le : α → α → Bool) (x : α) :
    ∀ l, x ∈ sortLe le l ↔ x ∈ l := by
  intro l
  induction l with
  | nil => simp [sortLe]
  | cons a as ih =>
    rw [sortLe, mem_insertLe]
    simp [ih, List.mem_cons]

/-- Lexicographic order on lists of characters by code point, the order
Python uses on strings. -/
def lexLt : List Char → List Char → Bool
  | [], [] => false
  | [], _ :: _ => true
  | _ :: _, [] => false
  | a :: as, b :: bs =>
      if a.val < b.val then true
      else if b.val < a.val then false
      else lexLt as bs

/-- Python string comparison (used by pandas when sorting string keys). -/
def strLt (a b : String) : Bool := lexLt a.data b.data

/-- Non-strict variant of strLt. -/
def strLe (a b : String) : Bool := strLt a b || decide (a = b)

/-- Python tuple comparison on (string, number) group keys, as pandas uses
when sorting the keys of a multi-column groupby. -/
def keyLe (a b : String × Nat) : Bool :=
  if a.1 = b.1 then decide (a.2 ≤ b.2) else strLt a.1 b.1

/-- Ascending comparison for rational keys and values. -/
def ratLe (a b : ℚ) : Bool := decide (a ≤ b)

/-- Ascending comparison for integer keys. -/
def intLe (a b : ℤ) : Bool := decide (a ≤ b)

/-- pandas mean reducer: sum divided by count. -/
def mean (l : List ℚ) : ℚ := l.sum / (l.length : ℚ)

/-- pandas median reducer: sort ascending; odd count takes the middle
element, even positive count averages the two middle elements.  (pandas
returns NaN on an empty series; every call site below reduces a nonempty
partition, so the default 0 of getD is never read.) -/
def median (l : List ℚ) : ℚ :=
  let s := sortLe ratLe l
  if s.length % 2 = 1 then s.getD (s.length / 2) 0
  else (s.getD (s.length / 2 - 1) 0 + s.getD (s.length / 2) 0) / 2

/-- pandas DataFrame.groupby(groupFields).agg(reducer) with the default
sort=True, as called at src/l2/gen_plots.py line 21, src/l3/plot.py line 26,
and src/l4/plot.py lines 42-45: partition the rows by exact equality of the
key, sort the distinct keys ascending, and reduce the measure values of each
partition (kept in input order) with the chosen reducer. -/
def aggregate [DecidableEq κ] (le : κ → κ → Bool) (key : ρ → κ)
    (meas : ρ → ℚ) (red : List ℚ → ℚ) (rows : List ρ) : List (κ × ℚ) :=
  (sortLe le (dedupFirst (rows.map key))).map
    (fun k => (k, red ((rows.filter (fun r => decide (key r = k))).map meas)))

theorem lookup_map_self [BEq κ] [LawfulBEq κ] [DecidableEq κ]
    (f : κ → β) (k : κ) :
    ∀ keys : List κ, List.lookup k (keys.map (fun x => (x, f x))) =
      if k ∈ keys then some (f k) else none := by
  intro keys
  induction keys with
  | nil => simp [List.lookup]
  | cons x xs ih =>
    by_cases hx : k = x
    · subst hx
      simp [List.lookup]
    · have hbeq : (k == x) = false := by
        simp [hx]
      simp [List.lookup, hbeq, ih, hx, List.mem_cons]

/-- Record shape of the aggregation scenario: a strategy, a size n and a
cost measure, grouped by (strategy, n) — the shape of the groupby calls at
src/l2/gen_plots.py line 21 and src/l4/plot.py lines 42-45 restricted to the
fields the claim uses. -/
structure ARow where
  strategy : String
  n : Nat
  cost : ℚ
deriving DecidableEq

/-- Group key of an ARow: the tuple of values at the group fields. -/
def aKey (r : ARow) : String × Nat := (r.strategy, r.n)

/-- groupby(["strategy","n"], sort=True default).agg mean over cost. -/
def aggMeanByStrategyN (rows : List ARow) : List ((String × Nat) × ℚ) :=
  aggregate keyLe aKey ARow.cost mean rows

/-- The claim's example records, FIFO group first. -/
def c2Rows : List ARow :=
  [⟨"FIFO", 10, 4⟩, ⟨"LRU", 10, 2⟩, ⟨"FIFO", 10, 6⟩]

/-- The same records with the LRU group occurring first. -/
def c2RowsSwapped : List ARow :=
  [⟨"LRU", 10, 2⟩, ⟨"FIFO", 10, 4⟩, ⟨"FIFO", 10, 6⟩]

/-- C2: the claim states the grouped result is in insertion order of each
group's first occurrence, not sorted.  pandas groupby defaults to sort=True:
on input whose first record belongs to the LRU group, the grouped result
still lists FIFO first (ascending key order), while first-occurrence order
would list LRU first. -/
theorem c2_order_counterexample :
    (aggMeanByStrategyN c2RowsSwapped).map Prod.fst =
      [("FIFO", 10), ("LRU", 10)] ∧
    dedupFirst (c2RowsSwapped.map aKey) = [("LRU", 10), ("FIFO", 10)] ∧
    (aggMeanByStrategyN c2RowsSwapped).map Prod.fst ≠
      dedupFirst (c2RowsSwapped.map aKey) := by
  have hkeys : sortLe keyLe (dedupFirst (c2RowsSwapped.map aKey)) =
      [("FIFO", 10), ("LRU", 10)] := by decide
  have h1 : (aggMeanByStrategyN c2RowsSwapped).map Prod.fst =
      [("FIFO", 10), ("LRU", 10)] := by
    simp only [aggMeanByStrategyN, aggregate]
    rw [hkeys]
    simp
  have h2 : dedupFirst (c2RowsSwapped.map aKey) =
      [("LRU", 10), ("FIFO", 10)] := by decide
  refine ⟨h1, h2, ?_⟩
  rw [h1, h2]
  decide

/-- C2 (amended): aggregate partitions records by exact equality of the
group-key tuple, reduces each partition's measure values with the chosen
reducer, and returns the groups in ascending sorted key order (the pandas
groupby sort=True default) rather than in first-occurrence order.  On the
claim's example the result is FIFO (cost mean 5) then LRU (cost mean 2),
an order that coincides with the sorted one; the keys of the result are
exactly the group keys occurring in the input, and each group's value is the
reduction of exactly the cost values of the records of that group. -/
theorem c2_aggregate_amended :
    aggMeanByStrategyN c2Rows = [(("FIFO", 10), 5), (("LRU", 10), 2)] ∧
    (∀ rows : List ARow, ∀ k : String × Nat,
      (k ∈ (aggMeanByStrategyN rows).map Prod.fst ↔ ∃ r ∈ rows, aKey r = k)) ∧
    (∀ rows : List ARow, ∀ k : String × Nat, ∀ v : ℚ,
      (k, v) ∈ aggMeanByStrategyN rows →
        v = mean ((rows.filter (fun r => decide (aKey r = k))).map ARow.cost)) := by
  refine ⟨?_, ?_, ?_⟩
  · have hkeys : sortLe keyLe (dedupFirst (c2Rows.map aKey)) =
        [("FIFO", 10), ("LRU", 10)] := by decide
    simp only [aggMeanByStrategyN, aggregate]
    rw [hkeys]
    simp [c2Rows, aKey, mean]
    norm_num
  · intro rows k
    simp only [aggMeanByStrategyN, aggregate, List.map_map]
    rw [show (Prod.fst ∘ fun k => (k,
        mean ((rows.filter (fun r => decide (aKey r = k))).map ARow.cost))) =
        id from rfl]
    rw [List.map_id, mem_sortLe, mem_dedupFirst]
    simp [List.mem_map]
  · intro rows k v hmem
    simp only [aggMeanByStrategyN, aggregate, List.mem_map] at hmem
    obtain ⟨x, _, hx⟩ := hmem
    obtain ⟨hk, hv⟩ := Prod.mk.injEq .. ▸ hx
    subst hk
    exact hv.symm

/-- C2 witness: the amended statement applied to the claim's own example
(group membership instantiated at the FIFO key). -/
theorem c2_aggregate_witness :
    aggMeanByStrategyN c2Rows = [(("FIFO", 10), 5), (("LRU", 10), 2)] ∧
    (("FIFO", 10) ∈ (aggMeanByStrategyN c2Rows).map Prod.fst ↔
      ∃ r ∈ c2Rows, aKey r = ("FIFO", 10)) :=
  ⟨c2_aggregate_amended.1, c2_aggregate_amended.2.1 c2Rows ("FIFO", 10)⟩

/-- src/l3/plot.py line 17: the explicit category order for strategies. -/
def strategy_order : List String :=
  ["NextFit", "RandomFit", "FirstFit", "BestFit", "WorstFit"]

/-- seaborn categorical plotting with an explicit `order=` argument
(src/l3/plot.py lines 36-39): the rows that are plotted are exactly those
whose category value appears in the order list; a row with an unlisted
category is silently excluded and no error is raised. -/
def orderedRows (order : List String) (cat : ρ → String) (rows : List ρ) :
    List ρ :=
  rows.filter (fun r => decide (cat r ∈ order))

/-- seaborn categorical plotting with an explicit `order=` argument: the
category axis shows exactly the entries of the order list, in that order,
keeping entries with no matching data as empty positions. -/
def orderedCategories (order : List String) : List String := order

/-- Rows for the claim's scenario: the data contains category C although the
explicit order is [A, B]. -/
def c3Rows : List L3Row :=
  [⟨"A", "Uniform", 1, 1⟩, ⟨"C", "Uniform", 1, 1⟩]

/-- C3: the claim states that an input value absent from the explicit order
makes the ordering construction fail with UnknownCategory.  In the code the
explicit order is handed to seaborn, which is total: with order [A, B] and
data containing C, the chart is built normally, the C row is silently
dropped, and the category axis is [A, B]. -/
theorem c3_unknown_category_counterexample :
    orderedRows ["A", "B"] L3Row.strategy c3Rows =
      [⟨"A", "Uniform", 1, 1⟩] ∧
    orderedCategories ["A", "B"] = ["A", "B"] := by
  constructor
  · decide
  · rfl

/-- C3 (amended): with a supplied explicit category order the chart
construction never fails: a row whose value is missing from the explicit
order is silently dropped from the plot, and the resulting ordering is
exactly the explicit order — including entries matched by no value, which
are kept as empty positions rather than dropped. -/
theorem c3_ordering_amended :
    (∀ (order : List String) (rows : List L3Row) (r : L3Row),
      r ∈ orderedRows order L3Row.strategy rows ↔
        r ∈ rows ∧ r.strategy ∈ order) ∧
    (∀ order : List String, orderedCategories order = order) := by
  constructor
  · intro order rows r
    simp [orderedRows, List.mem_filter]
  · intro order
    rfl

/-- C3 witness: the amended statement applied at the claim's scenario (the
kept A row) and at the strategy order of src/l3/plot.py. -/
theorem c3_ordering_witness :
    ((⟨"A", "Uniform", 1, 1⟩ : L3Row) ∈
        orderedRows ["A", "B"] L3Row.strategy c3Rows ↔
      (⟨"A", "Uniform", 1, 1⟩ : L3Row) ∈ c3Rows ∧ "A" ∈ ["A", "B"]) ∧
    orderedCategories strategy_order = strategy_order :=
  ⟨c3_ordering_amended.1 ["A", "B"] c3Rows ⟨"A", "Uniform", 1, 1⟩,
    c3_ordering_amended.2 strategy_order⟩

/-- src/l3/plot.py lines 25-33 (annotate_medians): the annotation source is
`medians = data.groupby(x_col)[y_col].median()`, a pandas groupby with the
median reducer; a category receives an annotation exactly when
`cat in medians`, with value `medians[cat]` — i.e. an association lookup in
the grouped result. -/
def annotValue (x : ρ → String) (y : ρ → ℚ) (rows : List ρ) (cat : String) :
    Option ℚ :=
  List.lookup cat (aggregate strLe x y median rows)

/-- The value a standalone aggregation with the median reducer over the same
records and the same grouping produces for one category: the median of the
y values of exactly that category's rows when the category occurs in the
data, and no value otherwise.  (Stated from the spec's words; C4 is the
refinement claim comparing the annotation pass against it.) -/
def standaloneMedian (x : ρ → String) (y : ρ → ℚ) (rows : List ρ)
    (cat : String) : Option ℚ :=
  if (rows.filter (fun r => decide (x r = cat))).isEmpty then none
  else some (median ((rows.filter (fun r => decide (x r = cat))).map y))

/-- C4: the per-category median annotated on a box chart — computed by a
second, separately grouped pass — equals, for every category, the median a
standalone aggregation with the median reducer over the same records and
grouping would produce: present categories get exactly the median of their
own rows' values, absent categories get no annotation. -/
theorem c4_annot_agrees (x : ρ → String) (y : ρ → ℚ) (rows : List ρ)
    (cat : String) :
    annotValue x y rows cat = standaloneMedian x y rows cat := by
  rw [annotValue, aggregate, lookup_map_self, standaloneMedian]
  simp only [mem_sortLe, mem_dedupFirst]
  by_cases h : cat ∈ rows.map x
  · rw [if_pos h]
    obtain ⟨r, hr, hxr⟩ := List.mem_map.mp h
    have hmem : r ∈ rows.filter (fun s => decide (x s = cat)) :=
      List.mem_filter.mpr ⟨hr, by simp [hxr]⟩
    have hne : rows.filter (fun s => decide (x s = cat)) ≠ [] :=
      List.ne_nil_of_mem hmem
    simp [List.isEmpty_iff, hne]
  · rw [if_neg h]
    have hnil : rows.filter (fun s => decide (x s = cat)) = [] := by
      rw [List.filter_eq_nil_iff]
      intro a ha
      simp only [decide_eq_true_eq]
      intro hxa
      exact h (List.mem_map.mpr ⟨a, ha, hxa⟩)
    simp [hnil]

/-- C4 witness: both passes evaluated on a concrete dataset whose A group
has bin counts [2, 4, 7], median 4. -/
theorem c4_annot_witness :
    annotValue L3Row.strategy L3Row.bin_count
        [⟨"A", "U", 1, 2⟩, ⟨"A", "U", 1, 4⟩, ⟨"B", "U", 1, 9⟩,
          ⟨"A", "U", 1, 7⟩] "A" = some 4 ∧
    standaloneMedian L3Row.strategy L3Row.bin_count
        [⟨"A", "U", 1, 2⟩, ⟨"A", "U", 1, 4⟩, ⟨"B", "U", 1, 9⟩,
          ⟨"A", "U", 1, 7⟩] "A" = some 4 := by
  have hs : standaloneMedian L3Row.strategy L3Row.bin_count
      [⟨"A", "U", 1, 2⟩, ⟨"A", "U", 1, 4⟩, ⟨"B", "U", 1, 9⟩,
        ⟨"A", "U", 1, 7⟩] "A" = some 4 := by decide
  exact ⟨(c4_annot_agrees L3Row.strategy L3Row.bin_count _ "A").trans hs, hs⟩

/-- Row of results.csv as read by src/l5/plot.py, restricted to the pivot
axes and the pivoted measure: threshold D, write probability p, cell value. -/
structure PRow where
  D : ℤ
  p : ℚ
  value : ℚ
deriving DecidableEq

/-- Two records at distinct positions share the same (D, p) pair — the
condition under which pandas pivot raises ValueError (even when the two
records carry equal values). -/
def hasDupCell : List PRow → Bool
  | [] => false
  | r :: rs => rs.any (fun s => decide (r.D = s.D ∧ r.p = s.p)) || hasDupCell rs

/-- The matrix a successful pivot builds: rows indexed by the distinct D
values sorted ascending, columns by the distinct p values sorted ascending;
a cell holds the value of the unique record at its (D, p) pair, or none
(pandas NaN) when no record has that pair. -/
def pivotMatrix (rows : List PRow) : List (ℤ × List (ℚ × Option ℚ)) :=
  (sortLe intLe (dedupFirst (rows.map PRow.D))).map
    (fun d => (d, (sortLe ratLe (dedupFirst (rows.map PRow.p))).map
      (fun c => (c,
        (rows.find? (fun r => decide (r.D = d ∧ r.p = c))).map PRow.value))))

/-- pandas DataFrame.pivot(index="D", columns="p", values=...) as called at
src/l5/plot.py lines 69 and 80. -/
def pivot (rows : List PRow) :
    Except String (List (ℤ × List (ℚ × Option ℚ))) :=
  if hasDupCell rows then
    .error "Index contains duplicate entries, cannot reshape"
  else .ok (pivotMatrix rows)

/-- Cell access in the pivot matrix: some (some v) is a value, some none an
explicit empty cell, none a (d, c) outside the matrix axes. -/
def cellOf (m : List (ℤ × List (ℚ × Option ℚ))) (d : ℤ) (c : ℚ) :
    Option (Option ℚ) :=
  (List.lookup d m).bind (fun row => List.lookup c row)

theorem hasDupCell_witness (r s : PRow) (hD : r.D = s.D) (hp : r.p = s.p) :
    ∀ (l1 l2 l3 : List PRow), hasDupCell (l1 ++ r :: l2 ++ s :: l3) = true := by
  intro l1
  induction l1 with
  | nil =>
    intro l2 l3
    rw [List.nil_append]
    simp only [hasDupCell, Bool.or_eq_true, List.any_eq_true]
    left
    refine ⟨s, ?_, by simp [hD, hp]⟩
    simp [List.mem_append]
  | cons a l1 ih =>
    intro l2 l3
    rw [List.cons_append]
    simp only [hasDupCell, Bool.or_eq_true, List.any_eq_true,
      decide_eq_true_eq]
    exact Or.inr (ih l2 l3)

/-- C5: pivot fails whenever two records at distinct positions share a
(D, p) pair — pandas raises a ValueError about duplicate index entries, the
behaviour the spec names DuplicatePivotCell — and in a successful pivot
every (D, p) pair of the matrix axes carried by no record is held as the
explicit empty cell none (pandas NaN), never as the number 0. -/
theorem c5_pivot :
    (∀ (r s : PRow) (l1 l2 l3 : List PRow), r.D = s.D → r.p = s.p →
      pivot (l1 ++ r :: l2 ++ s :: l3) =
        .error "Index contains duplicate entries, cannot reshape") ∧
    (∀ rows : List PRow, hasDupCell rows = false →
      pivot rows = .ok (pivotMatrix rows) ∧
      ∀ (d : ℤ) (c : ℚ), d ∈ rows.map PRow.D → c ∈ rows.map PRow.p →
        (∀ r ∈ rows, ¬(r.D = d ∧ r.p = c)) →
        cellOf (pivotMatrix rows) d c = some none) := by
  constructor
  · intro r s l1 l2 l3 hD hp
    rw [pivot, if_pos (hasDupCell_witness r s hD hp l1 l2 l3)]
  · intro rows hdup
    constructor
    · rw [pivot, hdup]
      simp
    · intro d c hd hc hnone
      rw [pivotMatrix, cellOf, lookup_map_self]
      simp only [mem_sortLe, mem_dedupFirst]
      rw [if_pos hd, Option.some_bind, lookup_map_self]
      simp only [mem_sortLe, mem_dedupFirst]
      rw [if_pos hc]
      have hfind : rows.find? (fun r => decide (r.D = d ∧ r.p = c)) = none := by
        rw [List.find?_eq_none]
        intro r hr
        simp only [decide_eq_true_eq]
        exact hnone r hr
      rw [hfind]
      rfl

/-- C5 witness: a duplicated (D, p) pair makes pivot fail even though both
records agree elsewhere, and in a successful pivot the absent cell (1, 2)
holds the explicit empty marker. -/
theorem c5_pivot_witness :
    pivot [⟨1, 1, 3⟩, ⟨1, 1, 4⟩] =
      .error "Index contains duplicate entries, cannot reshape" ∧
    cellOf (pivotMatrix [⟨1, 1, 5⟩, ⟨2, 2, 7⟩]) 1 2 = some none := by
  constructor
  · exact c5_pivot.1 ⟨1, 1, 3⟩ ⟨1, 1, 4⟩ [] [] [] rfl rfl
  · exact (c5_pivot.2 [⟨1, 1, 5⟩, ⟨2, 2, 7⟩] (by decide)).2 1 2
      (by decide) (by decide) (by decide)

/-- seaborn color_palette(name, n_colors) (src/l1/plot.py line 16,
src/l3/plot.py line 20): the first n_colors colors, cycling through the base
palette when more are requested.  Colors are identified by their index in an
abstract base palette list. -/
def color_palette (base : List ℕ) (m : ℕ) : List ℕ :=
  (List.range m).map (fun i => base.getD (i % base.length) 0)

/-- src/l3/plot.py line 21:
`strategy_palette = dict(zip(strategy_order, palette))` — each category of
the ordering is bound to the color at the same position. -/
def buildPalette (base : List ℕ) (order : List String) : List (String × ℕ) :=
  order.zip (color_palette base order.length)

theorem lookup_zip_get [BEq κ] [LawfulBEq κ] :
    ∀ (keys : List κ) (vals : List β), keys.Nodup →
      ∀ (i : ℕ) (hik : i < keys.length) (hiv : i < vals.length),
      List.lookup (keys.get ⟨i, hik⟩) (keys.zip vals) = some (vals.get ⟨i, hiv⟩) := by
  intro keys
  induction keys with
  | nil =>
    intro vals _ i hik hiv
    exact absurd hik (by simp)
  | cons k ks ih =>
    intro vals hnd i hik hiv
    cases vals with
    | nil => exact absurd hiv (by simp)
    | cons v vs =>
      cases i with
      | zero => simp [List.lookup]
      | succ n =>
        have hn : n < ks.length := by
          simpa using hik
        have hnv : n < vs.length := by
          simpa using hiv
        have hmem : ks.get ⟨n, hn⟩ ∈ ks := List.get_mem ks n hn
        have hne : ks.get ⟨n, hn⟩ ≠ k := by
          intro heq
          exact (List.nodup_cons.mp hnd).1 (heq ▸ hmem)
        have hbeq : (ks.get ⟨n, hn⟩ == k) = false :=
          beq_eq_false_iff_ne.mpr hne
        show List.lookup (ks.get ⟨n, hn⟩) ((k, v) :: ks.zip vs) =
          some (vs.get ⟨n, hnv⟩)
        rw [List.lookup, hbeq]
        exact ih vs (List.nodup_cons.mp hnd).2 n hn hnv

/-- C6: buildPalette is a pure function of the ordering and the base
palette, so two calls with the same arguments are definitionally the same
mapping; moreover the mapping is position-determined — the category at
position i of a duplicate-free ordering is bound to base color i (mod the
base palette size) — so every chart of a run that references the shared
ordering/palette binds each category to the same color. -/
theorem c6_palette (base : List ℕ) (order : List String) (i : ℕ)
    (hnd : order.Nodup) (hi : i < order.length) :
    buildPalette base order = buildPalette base order ∧
    List.lookup (order.get ⟨i, hi⟩) (buildPalette base order) =
      some (base.getD (i % base.length) 0) := by
  refine ⟨rfl, ?_⟩
  have hlen : (color_palette base order.length).length = order.length := by
    simp [color_palette]
  rw [buildPalette, lookup_zip_get order (color_palette base order.length)
    hnd i hi (by rw [hlen]; exact hi)]
  simp [color_palette]

/-- C6 witness: with an 8-color base palette and the strategy order of
src/l3/plot.py, position 2 (FirstFit) is bound to color 2. -/
theorem c6_palette_witness :
    List.lookup "FirstFit"
      (buildPalette [0, 1, 2, 3, 4, 5, 6, 7] strategy_order) = some 2 := by
  have h := (c6_palette [0, 1, 2, 3, 4, 5, 6, 7] strategy_order 2
    (by decide) (by decide)).2
  have hget : strategy_order.get ⟨2, by decide⟩ = "FirstFit" := rfl
  rw [hget] at h
  rw [h]
  decide

/-- A raw field value of results.csv before coercion: missing (NaN as
produced by read_csv for an absent field), an already numeric value, or a
non-numeric string. -/
inductive RVal where
  | na
  | num (q : ℚ)
  | str (s : String)
deriving DecidableEq

/-- A raw record of the results.csv read by src/l5/plot.py: the four
declared numeric columns before the astype coercions. -/
structure RawRec where
  D : RVal
  p : RVal
  avg_cost : RVal
  avg_max_copies : RVal
deriving DecidableEq

/-- A typed record after the astype coercions of src/l5/plot.py
lines 13-16: D as int, the three float columns as floats. -/
structure TypedRec where
  D : ℤ
  p : PFloat
  avg_cost : PFloat
  avg_max_copies : PFloat
deriving DecidableEq

/-- The exception content of a failed astype conversion.  The pandas
ValueError carries only the offending value (could not convert string to
float; cannot convert non-finite values to integer): it names neither the
record index nor the column. -/
inductive VErr where
  | floatBad (s : String)
  | intBad (s : String)
  | intNonFinite
deriving DecidableEq

/-- Series.astype(float): a numeric value is kept, a missing value is kept
as NaN without error, a non-numeric string raises. -/
def toFloatV : RVal → Except VErr PFloat
  | .num q => .ok (.fin q)
  | .na => .ok .nan
  | .str s => .error (.floatBad s)

/-- Series.astype(int): a numeric value is truncated toward zero (Python
int()), a missing value raises (non-finite), a non-numeric string raises. -/
def toIntV : RVal → Except VErr ℤ
  | .num q => .ok (Int.tdiv q.num (q.den : ℤ))
  | .na => .error .intNonFinite
  | .str s => .error (.intBad s)

/-- One astype call coerces a whole column, stopping at the first failing
value. -/
def coerceCol (f : RVal → Except VErr β) : List RVal → Except VErr (List β)
  | [] => .ok []
  | v :: vs =>
    match f v with
    | .error e => .error e
    | .ok b =>
      match coerceCol f vs with
      | .error e => .error e
      | .ok bs => .ok (b :: bs)

/-- Reassemble the coerced columns into records (the data frame keeps row
alignment across column assignments). -/
def zip4 : List ℤ → List PFloat → List PFloat → List PFloat → List TypedRec
  | d :: ds, p :: ps, a :: as, m :: ms => ⟨d, p, a, m⟩ :: zip4 ds ps as ms
  | _, _, _, _ => []

/-- The validation pass of src/l5/plot.py lines 13-16: the astype coercions
run column by column in program order (D as int, then p, avg_cost,
avg_max_copies as float); the first failing conversion aborts the run. -/
def validate (rows : List RawRec) : Except VErr (List TypedRec) :=
  match coerceCol toIntV (rows.map RawRec.D) with
  | .error e => .error e
  | .ok ds =>
    match coerceCol toFloatV (rows.map RawRec.p) with
    | .error e => .error e
    | .ok ps =>
      match coerceCol toFloatV (rows.map RawRec.avg_cost) with
      | .error e => .error e
      | .ok acs =>
        match coerceCol toFloatV (rows.map RawRec.avg_max_copies) with
        | .error e => .error e
        | .ok ams => .ok (zip4 ds ps acs ams)

/-- A record on which every declared coercion succeeds. -/
def conforms (r : RawRec) : Bool :=
  (toIntV r.D).toOption.isSome && (toFloatV r.p).toOption.isSome &&
    (toFloatV r.avg_cost).toOption.isSome &&
    (toFloatV r.avg_max_copies).toOption.isSome

/-- The typed record a conforming raw record coerces to. -/
def typedOf (r : RawRec) : TypedRec :=
  ⟨(toIntV r.D).toOption.getD 0, (toFloatV r.p).toOption.getD .nan,
    (toFloatV r.avg_cost).toOption.getD .nan,
    (toFloatV r.avg_max_copies).toOption.getD .nan⟩

theorem coerceCol_ok (f : RVal → Except VErr β) (dflt : β) :
    ∀ l : List RVal, (∀ v ∈ l, (f v).toOption.isSome = true) →
      coerceCol f l = .ok (l.map (fun v => (f v).toOption.getD dflt)) := by
  intro l
  induction l with
  | nil => intro _; rfl
  | cons v vs ih =>
    intro h
    have hv := h v (List.mem_cons_self v vs)
    obtain ⟨b, hb⟩ := Option.isSome_iff_exists.mp hv
    have hfb : f v = .ok b := by
      cases hfv : f v <;> rw [hfv] at hb <;> simp [Except.toOption] at hb
      rw [hb]
    rw [coerceCol.eq_def]
    simp only [hfb]
    rw [ih (fun w hw => h w (List.mem_cons_of_mem v hw))]
    simp [hfb, Except.toOption]

theorem zip4_map (g1 : RawRec → ℤ) (g2 g3 g4 : RawRec → PFloat) :
    ∀ rows : List RawRec,
      zip4 (rows.map g1) (rows.map g2) (rows.map g3) (rows.map g4) =
        rows.map (fun r => ⟨g1 r, g2 r, g3 r, g4 r⟩) := by
  intro rows
  induction rows with
  | nil => rfl
  | cons r rs ih =>
    simp only [List.map_cons, zip4, ih]

/-- Bad p value at record index 0. -/
def c7BadA : List RawRec := [⟨.num 1, .str "x", .num 0, .num 0⟩]

/-- Bad p value at record index 1. -/
def c7BadB : List RawRec :=
  [⟨.num 1, .num 0, .num 0, .num 0⟩, ⟨.num 2, .str "x", .num 1, .num 1⟩]

/-- Bad avg_cost value at record index 0. -/
def c7BadC : List RawRec := [⟨.num 1, .num 0, .str "x", .num 0⟩]

/-- A record missing its float-typed field p. -/
def c7Miss : List RawRec := [⟨.num 1, .na, .num 0, .num 0⟩]

/-- C7: the claim states a failed validation identifies the offending record
index and field.  The astype errors of the code carry only the offending
value: three datasets whose bad value sits at different indices (0 vs 1) and
in different fields (p vs avg_cost) produce the very same error, so the
error determines neither the index nor the field; moreover a record missing
the float field p does not fail at all — it validates to NaN. -/
theorem c7_schema_counterexample :
    validate c7BadA = .error (.floatBad "x") ∧
    validate c7BadB = .error (.floatBad "x") ∧
    validate c7BadC = .error (.floatBad "x") ∧
    validate c7Miss = .ok [⟨1, .nan, .fin 0, .fin 0⟩] := by
  refine ⟨rfl, rfl, rfl, rfl⟩

/-- C7 (amended): validation aborts on the first non-numeric value in a
numeric field, but its error reports only the offending value — neither the
record index nor the field name; a missing value in a float-typed field is
silently kept as NaN rather than failing; when every record conforms,
validation succeeds and returns the typed records in input order. -/
theorem c7_schema_amended (rows : List RawRec)
    (h : ∀ r ∈ rows, conforms r = true) :
    validate rows = .ok (rows.map typedOf) := by
  have hD : ∀ v ∈ rows.map RawRec.D, (toIntV v).toOption.isSome = true := by
    intro v hv
    obtain ⟨r, hr, rfl⟩ := List.mem_map.mp hv
    have := h r hr
    simp only [conforms, Bool.and_eq_true] at this
    exact this.1.1.1
  have hp : ∀ v ∈ rows.map RawRec.p, (toFloatV v).toOption.isSome = true := by
    intro v hv
    obtain ⟨r, hr, rfl⟩ := List.mem_map.mp hv
    have := h r hr
    simp only [conforms, Bool.and_eq_true] at this
    exact this.1.1.2
  have hac : ∀ v ∈ rows.map RawRec.avg_cost,
      (toFloatV v).toOption.isSome = true := by
    intro v hv
    obtain ⟨r, hr, rfl⟩ := List.mem_map.mp hv
    have := h r hr
    simp only [conforms, Bool.and_eq_true] at this
    exact this.1.2
  have ham : ∀ v ∈ rows.map RawRec.avg_max_copies,
      (toFloatV v).toOption.isSome = true := by
    intro v hv
    obtain ⟨r, hr, rfl⟩ := List.mem_map.mp hv
    have := h r hr
    simp only [conforms, Bool.and_eq_true] at this
    exact this.2
  rw [validate, coerceCol_ok toIntV 0 _ hD, coerceCol_ok toFloatV .nan _ hp,
    coerceCol_ok toFloatV .nan _ hac, coerceCol_ok toFloatV .nan _ ham]
  simp only [List.map_map]
  rw [zip4_map]
  rfl

/-- C7 witness: the amended statement on a conforming two-record dataset,
returned typed in input order. -/
theorem c7_schema_witness :
    validate [⟨.num 2, .num 1, .num 3, .na⟩, ⟨.num 5, .na, .num 4, .num 6⟩] =
      .ok ([⟨.num 2, .num 1, .num 3, .na⟩,
        ⟨.num 5, .na, .num 4, .num 6⟩].map typedOf) :=
  c7_schema_amended _ (by decide)

/-- One chart job of the per-combination loop of plot_cost_vs_D_split
(src/l4/plot.py lines 83-107): an (algorithm, distribution) pair. -/
structure ChartJob where
  alg : String
  dist : String
deriving DecidableEq

/-- The space-to-underscore substitution of src/l4/plot.py line 103. -/
def underscore (s : String) : String :=
  ⟨s.data.map (fun c => if c = ' ' then '_' else c)⟩

/-- src/l4/plot.py line 103: the artifact filename of one split chart, the
f-string cost_vs_D_<alg>_<dist>.png with spaces replaced by underscores. -/
def splitFname (j : ChartJob) : String :=
  underscore ("cost_vs_D_" ++ j.alg ++ "_" ++ j.dist ++ ".png")

/-- The sequential chart loop of src/l4/plot.py lines 83-107, the same shape
as the loops of src/l1/plot.py lines 18-23 and src/l2/gen_plots.py
lines 27-81: each iteration renders one chart and saves its file to the
output directory immediately; an exception aborts the remaining iterations,
and the files saved by the earlier iterations stay on disk.  The renderer
stands for the external backend and may fail.  The result is the list of
files present in the output directory afterwards and the error that stopped
the run, if any. -/
def runCharts (render : ChartJob → Except String Unit) :
    List ChartJob → List String × Option String
  | [] => ([], none)
  | j :: js =>
    match render j with
    | .error e => ([], some e)
    | .ok _ =>
      let rest := runCharts render js
      (splitFname j :: rest.1, rest.2)

/-- Whether rendering a job succeeds. -/
def renderOk (render : ChartJob → Except String Unit) (j : ChartJob) : Bool :=
  match render j with
  | .ok _ => true
  | .error _ => false

/-- The error of the first failing job, if any. -/
def firstErr (render : ChartJob → Except String Unit)
    (js : List ChartJob) : Option String :=
  match js.dropWhile (renderOk render) with
  | [] => none
  | j :: _ =>
    match render j with
    | .error e => some e
    | .ok _ => none

/-- A rendering backend that fails on the Harmonic distribution. -/
def failingRender (j : ChartJob) : Except String Unit :=
  if j.dist = "Harmonic" then .error "rendering failed" else .ok ()

/-- C8: the claim states a failing run leaves no partial output behind.  The
loops save each chart as soon as it is drawn: when the second of two jobs
fails, the run stops with the error, yet the first chart's file is already
in the output directory — partial output of the half-completed batch
remains. -/
theorem c8_partial_output_counterexample :
    runCharts failingRender
        [⟨"FIFO", "Uniform"⟩, ⟨"FIFO", "Harmonic"⟩] =
      (["cost_vs_D_FIFO_Uniform.png"], some "rendering failed") := by
  rfl

/-- C8 (amended): a failure at any point aborts the remaining iterations of
the batch, but the artifacts already written stay: after a run the output
directory holds exactly the files of the longest successful prefix of the
job list, and the reported error is that of the first failing job. -/
theorem c8_run_amended (render : ChartJob → Except String Unit)
    (js : List ChartJob) :
    runCharts render js =
      ((js.takeWhile (renderOk render)).map splitFname,
        firstErr render js) := by
  induction js with
  | nil => rfl
  | cons j js ih =>
    by_cases h : renderOk render j = true
    · obtain ⟨u, hu⟩ : ∃ u, render j = .ok u := by
        revert h
        unfold renderOk
        cases render j
        · simp
        · intro
          exact ⟨_, rfl⟩
      simp only [runCharts, hu, ih]
      simp [List.takeWhile_cons, h, firstErr, List.dropWhile_cons, hu]
    · obtain ⟨e, he⟩ : ∃ e, render j = .error e := by
        revert h
        unfold renderOk
        cases render j
        · intro
          exact ⟨_, rfl⟩
        · simp
      simp only [runCharts, he]
      simp [List.takeWhile_cons, h, firstErr, List.dropWhile_cons, he]

/-- C8 witness: the amended characterization evaluated on the failing batch
of the counterexample. -/
theorem c8_run_witness :
    runCharts failingRender [⟨"FIFO", "Uniform"⟩, ⟨"FIFO", "Harmonic"⟩] =
      (([⟨"FIFO", "Uniform"⟩, ⟨"FIFO", "Harmonic"⟩].takeWhile
          (renderOk failingRender)).map splitFname,
        firstErr failingRender
          [⟨"FIFO", "Uniform"⟩, ⟨"FIFO", "Harmonic"⟩]) :=
  c8_run_amended failingRender [⟨"FIFO", "Uniform"⟩, ⟨"FIFO", "Harmonic"⟩]

/-- src/l1/plot.py lines 18-22 and 26-30: the artifact filenames of one run
— one distribution_<name>.png per distinct distribution value in
first-appearance order, plus the fixed zoomed Uniform chart. -/
def l1Filenames (rows : List L1Row) : List String :=
  (dedupFirst (rows.map L1Row.distribution)).map
    (fun d => "distribution_" ++ d ++ ".png") ++
    ["distribution_Uniform_zoomed.png"]

/-- The group key of the summary groupby of src/l4/plot.py lines 78-82:
(Algorithm, Distribution, Graph, D). -/
structure L4Row where
  Algorithm : String
  Distribution : String
  Graph : String
  D : ℚ
  Cost : ℚ
deriving DecidableEq

/-- The dimension-field tuple each l4 row is grouped by. -/
def l4Key (r : L4Row) : String × String × String × ℚ :=
  (r.Algorithm, r.Distribution, r.Graph, r.D)

/-- Python tuple comparison on the 4-field group key. -/
def l4KeyLe (a b : String × String × String × ℚ) : Bool :=
  if a.1 = b.1 then
    if a.2.1 = b.2.1 then
      if a.2.2.1 = b.2.2.1 then ratLe a.2.2.2 b.2.2.2
      else strLt a.2.2.1 b.2.2.1
    else strLt a.2.1 b.2.1
  else strLt a.1 b.1

/-- The key rows of the summary frame of src/l4/plot.py lines 78-82: the
distinct group keys in the ascending order pandas groupby gives them. -/
def l4SummaryKeys (rows : List L4Row) :
    List (String × String × String × ℚ) :=
  sortLe l4KeyLe (dedupFirst (rows.map l4Key))

/-- src/l4/plot.py lines 83-107: the filenames of the split charts — for
each algorithm and distribution of the summary (in summary order), skipping
empty combinations, the sanitized cost_vs_D_<alg>_<dist>.png name. -/
def l4Filenames (rows : List L4Row) : List String :=
  (dedupFirst ((l4SummaryKeys rows).map (fun k => k.1))).flatMap (fun a =>
    (dedupFirst ((l4SummaryKeys rows).map (fun k => k.2.1))).filterMap
      (fun d =>
        if (l4SummaryKeys rows).any
            (fun k => decide (k.1 = a ∧ k.2.1 = d)) then
          some (underscore ("cost_vs_D_" ++ a ++ "_" ++ d ++ ".png"))
        else none))

/-- C9: the emitted artifact filenames are a deterministic function of the
chart kind and the bound dimension values only: two datasets that agree on
their dimension columns — whatever their measure values — produce exactly
the same filename list, both for the per-distribution charts of l1 and for
the per-(algorithm, distribution) split charts of l4. -/
theorem c9_filenames :
    (∀ r1 r2 : List L1Row,
      r1.map L1Row.distribution = r2.map L1Row.distribution →
      l1Filenames r1 = l1Filenames r2) ∧
    (∀ s1 s2 : List L4Row, s1.map l4Key = s2.map l4Key →
      l4Filenames s1 = l4Filenames s2) := by
  constructor
  · intro r1 r2 h
    rw [l1Filenames, l1Filenames, h]
  · intro s1 s2 h
    have hsum : l4SummaryKeys s1 = l4SummaryKeys s2 := by
      rw [l4SummaryKeys, l4SummaryKeys, h]
    rw [l4Filenames, l4Filenames, hsum]

/-- C9 witness: same dimension values with different measured costs give the
same filenames; the names themselves are the expected sanitized strings. -/
theorem c9_filenames_witness :
    l1Filenames [⟨1, "L", "Uniform", 5⟩] =
      l1Filenames [⟨1, "L", "Uniform", 99⟩] ∧
    l1Filenames [⟨1, "L", "Uniform", 5⟩] =
      ["distribution_Uniform.png", "distribution_Uniform_zoomed.png"] ∧
    l4Filenames [⟨"A B", "X", "G", 1, 5⟩] = ["cost_vs_D_A_B_X.png"] := by
  refine ⟨c9_filenames.1 [⟨1, "L", "Uniform", 5⟩] [⟨1, "L", "Uniform", 99⟩]
    rfl, by decide, by decide⟩

/-- Row of cache_results.csv within one distribution subset
(src/l2/gen_plots.py lines 27-32): endpoint n, cache strategy, cache size k,
measured avg_cost. -/
structure L2Row where
  n : ℕ
  cache_strategy : String
  k : ℕ
  avg_cost : ℚ
deriving DecidableEq

/-- Minimum of a list of naturals, none when empty — the value pandas
transform min broadcasts to each row of a group. -/
def minL : List ℕ → Option ℕ
  | [] => none
  | a :: as =>
    match minL as with
    | none => some a
    | some b => some (min a b)

/-- Maximum of a list of naturals, none when empty. -/
def maxL : List ℕ → Option ℕ
  | [] => none
  | a :: as =>
    match maxL as with
    | none => some a
    | some b => some (max a b)

theorem minL_eq_some_iff :
    ∀ (l : List ℕ) (x : ℕ),
      minL l = some x ↔ x ∈ l ∧ ∀ y ∈ l, x ≤ y := by
  intro l
  induction l with
  | nil => intro x; simp [minL]
  | cons a as ih =>
    intro x
    cases h : minL as with
    | none =>
      have has : as = [] := by
        cases as with
        | nil => rfl
        | cons b bs =>
          simp only [minL] at h
          cases hbs : minL bs <;> rw [hbs] at h <;>
            exact Option.noConfusion h
      subst has
      constructor
      · intro hx
        simp only [minL] at hx
        have hax : a = x := by injection hx
        subst hax
        exact ⟨List.mem_singleton_self a, by
          intro y hy
          rw [List.eq_of_mem_singleton hy]⟩
      · rintro ⟨hmem, _⟩
        have hx : x = a := List.eq_of_mem_singleton hmem
        subst hx
        rfl
    | some b =>
      have hb := (ih b).mp h
      have hcons : minL (a :: as) = some (min a b) := by
        simp only [minL, h]
      rw [hcons]
      constructor
      · intro hx
        have hxab : min a b = x := by injection hx
        subst hxab
        constructor
        · rcases le_total a b with hab | hba
          · rw [min_eq_left hab]
            exact List.mem_cons_self a as
          · rw [min_eq_right hba]
            exact List.mem_cons_of_mem a hb.1
        · intro y hy
          rcases List.mem_cons.mp hy with hya | hy2
          · rw [hya]
            exact min_le_left a b
          · exact le_trans (min_le_right a b) (hb.2 y hy2)
      · rintro ⟨hmem, hle⟩
        have h1 : x ≤ min a b :=
          le_min (hle a (List.mem_cons_self a as))
            (hle b (List.mem_cons_of_mem a hb.1))
        have h2 : min a b ≤ x := by
          rcases List.mem_cons.mp hmem with hxa | hx2
          · rw [hxa]
            exact min_le_left a b
          · exact le_trans (min_le_right a b) (hb.2 x hx2)
        rw [le_antisymm h2 h1]

theorem maxL_eq_some_iff :
    ∀ (l : List ℕ) (x : ℕ),
      maxL l = some x ↔ x ∈ l ∧ ∀ y ∈ l, y ≤ x := by
  intro l
  induction l with
  | nil => intro x; simp [maxL]
  | cons a as ih =>
    intro x
    cases h : maxL as with
    | none =>
      have has : as = [] := by
        cases as with
        | nil => rfl
        | cons b bs =>
          simp only [maxL] at h
          cases hbs : maxL bs <;> rw [hbs] at h <;>
            exact Option.noConfusion h
      subst has
      constructor
      · intro hx
        simp only [maxL] at hx
        have hax : a = x := by injection hx
        subst hax
        exact ⟨List.mem_singleton_self a, by
          intro y hy
          rw [List.eq_of_mem_singleton hy]⟩
      · rintro ⟨hmem, _⟩
        have hx : x = a := List.eq_of_mem_singleton hmem
        subst hx
        rfl
    | some b =>
      have hb := (ih b).mp h
      have hcons : maxL (a :: as) = some (max a b) := by
        simp only [maxL, h]
      rw [hcons]
      constructor
      · intro hx
        have hxab : max a b = x := by injection hx
        subst hxab
        constructor
        · rcases le_total a b with hab | hba
          · rw [max_eq_right hab]
            exact List.mem_cons_of_mem a hb.1
          · rw [max_eq_left hba]
            exact List.mem_cons_self a as
        · intro y hy
          rcases List.mem_cons.mp hy with hya | hy2
          · rw [hya]
            exact le_max_left a b
          · exact le_trans (hb.2 y hy2) (le_max_right a b)
      · rintro ⟨hmem, hle⟩
        have h1 : max a b ≤ x :=
          max_le (hle a (List.mem_cons_self a as))
            (hle b (List.mem_cons_of_mem a hb.1))
        have h2 : x ≤ max a b := by
          rcases List.mem_cons.mp hmem with hxa | hx2
          · rw [hxa]
            exact le_max_left a b
          · exact le_trans (hb.2 x hx2) (le_max_right a b)
        rw [le_antisymm h1 h2]

/-- The k values of the (n, cache_strategy) group of row r within rows, in
row order — the series pandas groupby(["n","cache_strategy"])["k"] reduces
for r's group. -/
def groupKs (rows : List L2Row) (r : L2Row) : List ℕ :=
  (rows.filter (fun s =>
    decide (s.n = r.n ∧ s.cache_strategy = r.cache_strategy))).map L2Row.k

/-- src/l2/gen_plots.py line 31: keep the rows whose k equals the
transform-min of their (n, cache_strategy) group. -/
def dfDistMin (rows : List L2Row) : List L2Row :=
  rows.filter (fun r => decide (minL (groupKs rows r) = some r.k))

/-- src/l2/gen_plots.py line 32: keep the rows whose k equals the
transform-max of their (n, cache_strategy) group. -/
def dfDistMax (rows : List L2Row) : List L2Row :=
  rows.filter (fun r => decide (maxL (groupKs rows r) = some r.k))

/-- C10: the lowest-k (resp. highest-k) subset consists of exactly the rows
whose k value is minimal (resp. maximal) among the rows of their own
(n, cache_strategy) group: ties at the extreme are all kept, and no row is
compared against rows of another group. -/
theorem c10_extreme_k (rows : List L2Row) (r : L2Row) :
    (r ∈ dfDistMin rows ↔ r ∈ rows ∧ ∀ s ∈ rows,
      s.n = r.n → s.cache_strategy = r.cache_strategy → r.k ≤ s.k) ∧
    (r ∈ dfDistMax rows ↔ r ∈ rows ∧ ∀ s ∈ rows,
      s.n = r.n → s.cache_strategy = r.cache_strategy → s.k ≤ r.k) := by
  constructor
  · rw [dfDistMin, List.mem_filter]
    simp only [decide_eq_true_eq]
    constructor
    · rintro ⟨hr, hmin⟩
      have hchar := (minL_eq_some_iff _ _).mp hmin
      refine ⟨hr, ?_⟩
      intro s hs hn hcs
      apply hchar.2
      rw [groupKs, List.mem_map]
      exact ⟨s, List.mem_filter.mpr ⟨hs, by simp [hn, hcs]⟩, rfl⟩
    · rintro ⟨hr, hbound⟩
      refine ⟨hr, ?_⟩
      rw [minL_eq_some_iff]
      constructor
      · rw [groupKs, List.mem_map]
        exact ⟨r, List.mem_filter.mpr ⟨hr, by simp⟩, rfl⟩
      · intro y hy
        rw [groupKs, List.mem_map] at hy
        obtain ⟨s, hs, rfl⟩ := hy
        have hsf := List.mem_filter.mp hs
        have hcond := hsf.2
        simp only [decide_eq_true_eq] at hcond
        exact hbound s hsf.1 hcond.1 hcond.2
  · rw [dfDistMax, List.mem_filter]
    simp only [decide_eq_true_eq]
    constructor
    · rintro ⟨hr, hmax⟩
      have hchar := (maxL_eq_some_iff _ _).mp hmax
      refine ⟨hr, ?_⟩
      intro s hs hn hcs
      apply hchar.2
      rw [groupKs, List.mem_map]
      exact ⟨s, List.mem_filter.mpr ⟨hs, by simp [hn, hcs]⟩, rfl⟩
    · rintro ⟨hr, hbound⟩
      refine ⟨hr, ?_⟩
      rw [maxL_eq_some_iff]
      constructor
      · rw [groupKs, List.mem_map]
        exact ⟨r, List.mem_filter.mpr ⟨hr, by simp⟩, rfl⟩
      · intro y hy
        rw [groupKs, List.mem_map] at hy
        obtain ⟨s, hs, rfl⟩ := hy
        have hsf := List.mem_filter.mp hs
        have hcond := hsf.2
        simp only [decide_eq_true_eq] at hcond
        exact hbound s hsf.1 hcond.1 hcond.2

/-- A concrete per-distribution subset: the (10, FIFO) group has k values
[2, 2, 4] (a tie at the minimum) and the (10, LRU) group the single k 3. -/
def c10Rows : List L2Row :=
  [⟨10, "FIFO", 2, 5⟩, ⟨10, "FIFO", 2, 6⟩, ⟨10, "FIFO", 4, 7⟩,
    ⟨10, "LRU", 3, 8⟩]

/-- C10 witness: both tied minimal FIFO rows are kept in the lowest-k
subset, the k = 4 row is kept in the highest-k subset, and the LRU row —
alone in its group — is kept in the lowest-k subset even though other
groups hold smaller k values. -/
theorem c10_extreme_k_witness :
    (⟨10, "FIFO", 2, 5⟩ : L2Row) ∈ dfDistMin c10Rows ∧
    (⟨10, "FIFO", 2, 6⟩ : L2Row) ∈ dfDistMin c10Rows ∧
    (⟨10, "FIFO", 4, 7⟩ : L2Row) ∈ dfDistMax c10Rows ∧
    (⟨10, "LRU", 3, 8⟩ : L2Row) ∈ dfDistMin c10Rows := by
  refine ⟨?_, ?_, ?_, ?_⟩
  · exact ((c10_extreme_k c10Rows ⟨10, "FIFO", 2, 5⟩).1).mpr
      ⟨by decide, by decide⟩
  · exact ((c10_extreme_k c10Rows ⟨10, "FIFO", 2, 6⟩).1).mpr
      ⟨by decide, by decide⟩
  · exact ((c10_extreme_k c10Rows ⟨10, "FIFO", 4, 7⟩).2).mpr
      ⟨by decide, by decide⟩
  · exact ((c10_extreme_k c10Rows ⟨10, "LRU", 3, 8⟩).1).mpr
      ⟨by decide, by decide⟩
